import Mathlib

/-!
Verification of the quilt `PackageStore` (src/compiler/quilt/tools/store.py)
against its natural-language specification.

The store is embedded shallowly: the on-disk state a `PackageStore` touches is
captured by an explicit `Store` value, and each Python method becomes a Lean
function from the old state to the new state plus a return value and an
optional raised exception.  External collaborators that are not part of this
repository's source (core.find_object_hashes, util.is_nodename, the Package
manifest class, const.DEFAULT_TEAM) are modelled from the specification and
marked as such in their doc comments.
-/

namespace QuiltStore

/-- Modelled from the spec: const.DEFAULT_TEAM, the reserved default-team
name whose directory holds packages that are not team-qualified. -/
def DEFAULT_TEAM : String := "default"

/-- Current store format version (PackageStore.VERSION in store.py). -/
def VERSION : String := "1.4"

/-- Modelled from the spec: util.is_nodename, the Naming Validator, a pure
predicate over identifier strings.  The spec fixes no concrete grammar, only
that it is a pure predicate over team/user/package/path-element names; we use
a representative one (nonempty, leading ASCII letter, then letters, digits or
underscore).  No claim depends on which particular strings are valid. -/
def is_nodename (s : String) : Bool :=
  match s.data with
  | [] => false
  | c :: rest => c.isAlpha && rest.all (fun d => d.isAlphanum || d = '_')

/-- Modelled from the spec: the manifest contents tree produced by the
manifest collaborator (core.RootNode / TableNode / FileNode): a tree whose
leaves are file nodes carrying an object hash and whose internal nodes are
grouping nodes.  `RootNode(dict())` is `group []`. -/
inductive ContentsNode where
  | file (objHash : String)
  | group (children : List ContentsNode)
deriving Repr

mutual

/-- Modelled from the spec: core.find_object_hashes — enumerate all object
hashes reachable from a manifest contents tree. -/
def find_object_hashes : ContentsNode → List String
  | ContentsNode.file h => [h]
  | ContentsNode.group cs => find_object_hashes_list cs

/-- Hash enumeration over a list of children, in order. -/
def find_object_hashes_list : List ContentsNode → List String
  | [] => []
  | c :: cs => find_object_hashes c ++ find_object_hashes_list cs

end

mutual

/-- Modelled from the spec: a stand-in for the collaborator-computed digest
identifying a manifest instance ("identified by a hash (assumed precomputed
by the manifest collaborator)").  Any injective-enough encoding serves; the
store never interprets instance hashes. -/
def contentsHash : ContentsNode → String
  | ContentsNode.file h => "F(" ++ h ++ ")"
  | ContentsNode.group cs => "G(" ++ contentsHashList cs ++ ")"

/-- Digest encoding of a child list. -/
def contentsHashList : List ContentsNode → String
  | [] => ""
  | c :: cs => contentsHash c ++ "," ++ contentsHashList cs

end

/-- One package directory on disk: its `contents/` sub-collection of instance
manifest files (instance hash → parsed manifest) and its `tags/` sub-collection
of tag files (tag name → file content, which is an instance hash).  The
`parsable` flag is modelled from the spec: whether the Package manifest
collaborator can load this package (getPackage swallows a parse failure
into a not-found result). -/
structure PackageDirData where
  instances : List (String × ContentsNode)
  tags : List (String × String)
  parsable : Bool
deriving Repr

/-- A directory entry at a package path: either a regular file (a
non-directory artifact left at the path) or a package directory. -/
inductive PkgEntry where
  | file (content : String)
  | dir (d : PackageDirData)
deriving Repr

/-- A user directory: package name → entry. -/
abbrev UserDir := List (String × PkgEntry)

/-- A team directory: user name → user directory. -/
abbrev TeamDir := List (String × UserDir)

/-- The `pkgs/` area of the store.  The filesystem does not tag its layout:
before format 1.3 the top-level directories are user directories (`flat`),
from 1.3 on they are team directories (`teamed`).  The 1.2 → 1.3 migration
moves a flat layout under the default team. -/
inductive PkgArea where
  | flat (users : TeamDir)
  | teamed (teams : List (String × TeamDir))
deriving Repr

/-- The on-disk state of one package store root.
`objects` holds the hashes whose sharded object file
`objs/hash[0:2]/hash[2:]` exists; `flatObjects` the names of files lying
directly under `objs/` (pre-1.4 layout); `objSubdirs` the names of
subdirectories of `objs/` (the shard directories).  `version` is the content
of the `.format` file, `none` when the file is absent.  The existence
booleans track the directories `create_dirs` makes. -/
structure Store where
  version : Option String
  pkgs : Option PkgArea
  objects : List String
  flatObjects : List String
  objSubdirs : List String
  rootExists : Bool
  objDirExists : Bool
  tmpDirExists : Bool
  cacheDirExists : Bool
deriving Repr

/-- Errors raised by store operations (StoreException and the Python
exceptions that can escape store methods). -/
inductive StoreError where
  | invalidName (name : String)
  | incompatibleFormat
  | osError
  | keyError (k : String)
deriving Repr, DecidableEq

/-- Result of a store method: the disk state when the method returns or
raises, the returned value (meaningful only when `err` is `none`), and the
raised exception, if any. -/
structure OpResult (α : Type) where
  store : Store
  ret : α
  err : Option StoreError

/-- A Package handle as constructed by store methods: `pkghash` is set for
instance handles yielded by `iterpackages`; `contents` is the parsed manifest
of that instance (`get_contents`). -/
structure Package where
  user : String
  package : String
  pkghash : Option String
  contents : Option ContentsNode
deriving Repr

/-- Modelled from the spec: Package.get_contents on an instance handle
returns the instance's parsed manifest.  Handles yielded by `iterpackages`
always carry their manifest; the default is never consulted by the store
code under verification. -/
def get_contents (p : Package) : ContentsNode :=
  p.contents.getD (ContentsNode.group [])

/-- First entry of an association list with the given key (the unique entry,
on states that represent a real directory). -/
def findEntry {β : Type} (l : List (String × β)) (k : String) : Option β :=
  match l with
  | [] => none
  | (k', v) :: rest => if k' = k then some v else findEntry rest k

/-- Overwrite every entry with the given key, or append a new entry when the
key is absent (writing a file into a directory). -/
def putEntry {β : Type} (l : List (String × β)) (k : String) (v : β) : List (String × β) :=
  if l.any (fun p => p.1 = k) then l.map (fun p => if p.1 = k then (p.1, v) else p)
  else l ++ [(k, v)]

/-- Path lookup `pkgs/team/user/package` (what `os.path.isdir` and the
constructors see at the package path).  Only the teamed (1.3+) layout
resolves a three-level path. -/
def getPkgEntry (s : Store) (team user package : String) : Option PkgEntry :=
  match s.pkgs with
  | some (PkgArea.teamed teams) =>
      (findEntry teams team).bind fun users =>
        (findEntry users user).bind fun pkgs => findEntry pkgs package
  | _ => none

/-- Write an entry at `pkgs/team/user/package`, creating the intermediate
team and user directories when absent. -/
def setPkgEntry (s : Store) (team user package : String) (e : PkgEntry) : Store :=
  match s.pkgs with
  | some (PkgArea.teamed teams) =>
      let users := (findEntry teams team).getD []
      let pkgs := (findEntry users user).getD []
      { s with pkgs := some (PkgArea.teamed
          (putEntry teams team (putEntry users user (putEntry pkgs package e)))) }
  | _ =>
      { s with pkgs := some (PkgArea.teamed
          [(team, [(user, [(package, e)])])]) }

/-- Remove the entry named `package` from a user directory. -/
def delInUser (pkgs : List (String × PkgEntry)) (package : String) :
    List (String × PkgEntry) :=
  pkgs.filter fun p => p.1 ≠ package

/-- Remove the entry named `package` from the `user` directory of a team
directory. -/
def delInTeam (users : TeamDir) (user package : String) : TeamDir :=
  users.map fun u => if u.1 = user then (u.1, delInUser u.2 package) else u

/-- shutil.rmtree at a package path: remove the entry named `package` from
the user directory it lives in. -/
def delPkgTree (s : Store) (team user package : String) : Store :=
  match s.pkgs with
  | some (PkgArea.teamed teams) =>
      { s with pkgs := some (PkgArea.teamed (teams.map fun t =>
          if t.1 = team then (t.1, delInTeam t.2 user package) else t)) }
  | _ => s

/-- Two-character lowercase hex rendering of a byte value (Python
format string applied to 0 ≤ n < 256 in the migration and create_dirs). -/
def hex2 (n : Nat) : String :=
  let dig := fun m => if m < 10 then Char.ofNat (48 + m) else Char.ofNat (87 + m)
  String.mk [dig (n / 16 % 16), dig (n % 16)]

/-- The 256 shard directory names 00 .. ff. -/
def allShardNames : List String := (List.range 256).map hex2

/-- PackageStore.check_name: validate team (when non-null), user, package
and each subpath element, in that order, failing on the first invalid one. -/
def check_name_rest (user package : String) (subpath : List String) : Option StoreError :=
  if !is_nodename user then some (StoreError.invalidName user)
  else if !is_nodename package then some (StoreError.invalidName package)
  else subpath.findSome? fun e =>
    if !is_nodename e then some (StoreError.invalidName e) else none

/-- PackageStore.check_name, team argument included. -/
def check_name (team : Option String) (user package : String) (subpath : List String) :
    Option StoreError :=
  match team with
  | some t =>
      if !is_nodename t then some (StoreError.invalidName t)
      else check_name_rest user package subpath
  | none => check_name_rest user package subpath

/-- PackageStore.create_dirs: idempotently create the store root, the
objs/tmp/pkgs/cache directories and the 256 shard directories, and write the
current format version if the version file is absent. -/
def create_dirs (s : Store) : Store :=
  { s with
      rootExists := true
      objDirExists := true
      tmpDirExists := true
      cacheDirExists := true
      pkgs := some (s.pkgs.getD (PkgArea.teamed []))
      objSubdirs := s.objSubdirs ++ allShardNames.filter (fun n => n ∉ s.objSubdirs)
      version := some (s.version.getD VERSION) }

/-- The 1.3 → 1.4 migration step in PackageStore.__init__: create the 256
shard directories when absent, rename every flat file under objs/ whose name
length is 64 into its sharded location, and persist version 1.4.
Faults from exotic states (a 64-character-named subdirectory of objs/, a
regular file occupying a shard name, a missing objs/ directory) are not
modelled. -/
def migrate_1_3 (s : Store) : Store :=
  { s with
      objSubdirs := s.objSubdirs ++ allShardNames.filter (fun n => n ∉ s.objSubdirs)
      objects := s.objects ++ s.flatObjects.filter (fun f => f.length = 64)
      flatObjects := s.flatObjects.filter (fun f => f.length ≠ 64)
      version := some VERSION }

/-- PackageStore.__init__ after the basename assertion: read the version
file, run the 1.2 → 1.3 and 1.3 → 1.4 migration steps as their guards match,
and raise StoreException when the final version is neither absent nor
current.  A 1.2 store whose pkgs/ directory is missing or already holds the
default-team directory makes os.mkdir/sub_dirs raise, and a 1.2 store in the
teamed layout is outside the model; both return osError unmigrated. -/
def openStore (s : Store) : OpResult Unit :=
  if s.version = some "1.2" then
    match s.pkgs with
    | some (PkgArea.flat users) =>
        if users.any (fun u => u.1 = DEFAULT_TEAM) then
          { store := s, ret := (), err := some StoreError.osError }
        else
          let s1 : Store :=
            { s with pkgs := some (PkgArea.teamed [(DEFAULT_TEAM, users)])
                     version := some "1.3" }
          { store := migrate_1_3 s1, ret := (), err := none }
    | _ => { store := s, ret := (), err := some StoreError.osError }
  else if s.version = some "1.3" then
    { store := migrate_1_3 s, ret := (), err := none }
  else if s.version = none ∨ s.version = some VERSION then
    { store := s, ret := (), err := none }
  else
    { store := s, ret := (), err := some StoreError.incompatibleFormat }

/-- PackageStore.get_package: validate names, and when the package path is a
directory whose manifest the collaborator can parse, return a Package
handle; otherwise return None (parse failures are swallowed). -/
def get_package (s : Store) (team : Option String) (user package : String) :
    Except StoreError (Option Package) :=
  match check_name team user package [] with
  | some e => Except.error e
  | none =>
      match getPkgEntry s (team.getD DEFAULT_TEAM) user package with
      | some (PkgEntry.dir d) =>
          if d.parsable then
            Except.ok (some { user := user, package := package, pkghash := none, contents := none })
          else Except.ok none
      | _ => Except.ok none

/-- Modelled from the spec: the Package collaborator constructed with a
contents tree "writes a fresh package rooted at contents", i.e. (re)creates
the package directory and writes the instance file named by the
collaborator-computed digest of the contents into its instance collection.
Writing an instance file into an existing directory leaves that directory's
other entries in place (plain filesystem semantics). -/
def writePackageContents (s : Store) (team user package : String) (c : ContentsNode) : Store :=
  let h := contentsHash c
  match getPkgEntry s team user package with
  | some (PkgEntry.dir d) =>
      setPkgEntry s team user package
        (PkgEntry.dir { d with instances := putEntry d.instances h c })
  | _ =>
      setPkgEntry s team user package
        (PkgEntry.dir { instances := [(h, c)], tags := [], parsable := true })

/-- PackageStore.install_package: validate names (contents is non-null by
typing), create the store layout, `os.remove` the package path — which
succeeds only on a regular file; the OSError raised on a directory or on a
missing path is swallowed — then write the package rooted at `contents`. -/
def install_package (s : Store) (team : Option String) (user package : String)
    (c : ContentsNode) : OpResult Unit :=
  match check_name team user package [] with
  | some e => { store := s, ret := (), err := some e }
  | none =>
      let tm := team.getD DEFAULT_TEAM
      let s1 := create_dirs s
      let s2 := match getPkgEntry s1 tm user package with
        | some (PkgEntry.file _) => delPkgTree s1 tm user package
        | _ => s1
      { store := writePackageContents s2 tm user package c, ret := (), err := none }

/-- PackageStore.create_package: the dry-run variant constructs an in-memory
package object without touching the filesystem; otherwise install an
empty-contents package. -/
def create_package (s : Store) (team : Option String) (user package : String)
    (dry_run : Bool) : OpResult Unit :=
  if dry_run then { store := s, ret := (), err := none }
  else install_package s team user package (ContentsNode.group [])

/-- PackageStore.iterpackages: nested enumeration team dirs → user dirs →
package dirs → instance files, yielding one handle per (package, instance)
pair.  Directory enumeration skips regular files.  A store still in the
pre-teams layout is enumerated by the source through mismatched directory
levels; it is unreachable after a successful open and not modelled (empty). -/
def iterpackages (s : Store) : List Package :=
  match s.pkgs with
  | some (PkgArea.teamed teams) =>
      teams.flatMap fun t =>
        t.2.flatMap fun u =>
          u.2.flatMap fun p =>
            match p.2 with
            | PkgEntry.file _ => []
            | PkgEntry.dir d =>
                d.instances.map fun inst =>
                  { user := u.1, package := p.1, pkghash := some inst.1,
                    contents := some inst.2 }
  | _ => []

/-- All object hashes reachable from some live package instance: what the
mark phase of `prune` subtracts from the candidate set. -/
def liveHashes (s : Store) : List String :=
  (iterpackages s).flatMap fun p => find_object_hashes (get_contents p)

/-- One mark step of PackageStore.prune:
`remove_objs.difference_update(find_object_hashes(pkg.get_contents()))`. -/
def pruneStep (acc : Finset String) (p : Package) : Finset String :=
  acc.filter fun o => o ∉ find_object_hashes (get_contents p)

/-- PackageStore.prune: subtract every live instance's hash enumeration from
the candidate set, delete from disk each remaining candidate whose object
file exists, and return the remaining candidate set. -/
def prune (s : Store) (objs : Finset String) : Store × Finset String :=
  let removeObjs := (iterpackages s).foldl pruneStep objs
  ({ s with objects := s.objects.filter fun h => h ∉ removeObjs }, removeObjs)

/-- PackageStore.remove_package: validate names; when the package path is a
directory, union the hash enumerations of all its instances, rmtree the
package directory, and prune seeded with that union; otherwise prune seeded
with the empty set.  Returns prune's result set. -/
def remove_package (s : Store) (team : Option String) (user package : String) :
    OpResult (Finset String) :=
  match check_name team user package [] with
  | some e => { store := s, ret := ∅, err := some e }
  | none =>
      let tm := team.getD DEFAULT_TEAM
      match getPkgEntry s tm user package with
      | some (PkgEntry.dir d) =>
          let seed := d.instances.foldl
            (fun acc i => acc ∪ (find_object_hashes i.2).toFinset) ∅
          let s1 := delPkgTree s tm user package
          let pr := prune s1 seed
          { store := pr.1, ret := pr.2, err := none }
      | _ =>
          let pr := prune s (∅ : Finset String)
          { store := pr.1, ret := pr.2, err := none }

/-- One display row of ls_packages: (fully qualified name, tag or empty
string, instance hash). -/
abbrev Row := String × String × String

/-- The tag loop of PackageStore.ls_packages: starting from the map
`instance hash → []` built over the instance files, read each tag file in
order and append the tag name to its hash's list —
`pkgmap[pkghash].append(tag)` — raising KeyError when the hash read from the
tag file is not a key of the map. -/
def tagFold (pkgmap : List (String × List String)) :
    List (String × String) → Except StoreError (List (String × List String))
  | [] => Except.ok pkgmap
  | (tag, h) :: rest =>
      if pkgmap.any (fun p => p.1 = h) then
        tagFold (pkgmap.map fun p => if p.1 = h then (p.1, p.2 ++ [tag]) else p) rest
      else Except.error (StoreError.keyError h)

/-- The row loop of PackageStore.ls_packages for one package: the default
team's name is suppressed, any other team prefixed as team:, every instance
with zero tags is represented once with an empty tag string, and every tag
adds one row. -/
def pkgRows (team user package : String) (pkgmap : List (String × List String)) : List Row :=
  pkgmap.flatMap fun p =>
    let team_token := if team = DEFAULT_TEAM then "" else team ++ ":"
    let fullpkg := team_token ++ user ++ "/" ++ package
    let displaytags := if p.2 = [] then [""] else p.2
    displaytags.map fun tag => (fullpkg, tag, p.1)

/-- ls_packages restricted to one package directory. -/
def lsPkg (team user package : String) (d : PackageDirData) :
    Except StoreError (List Row) :=
  match tagFold (d.instances.map fun i => (i.1, [])) d.tags with
  | Except.error e => Except.error e
  | Except.ok pkgmap => Except.ok (pkgRows team user package pkgmap)

/-- ls_packages restricted to one user directory (sub_dirs skips regular
files). -/
def lsUser (team user : String) : List (String × PkgEntry) → Except StoreError (List Row)
  | [] => Except.ok []
  | (_, PkgEntry.file _) :: rest => lsUser team user rest
  | (pname, PkgEntry.dir d) :: rest =>
      match lsPkg team user pname d with
      | Except.error e => Except.error e
      | Except.ok rows =>
          match lsUser team user rest with
          | Except.error e => Except.error e
          | Except.ok rest' => Except.ok (rows ++ rest')

/-- ls_packages restricted to one team directory. -/
def lsTeam (team : String) : List (String × UserDir) → Except StoreError (List Row)
  | [] => Except.ok []
  | (uname, pkgs) :: rest =>
      match lsUser team uname pkgs with
      | Except.error e => Except.error e
      | Except.ok rows =>
          match lsTeam team rest with
          | Except.error e => Except.error e
          | Except.ok rest' => Except.ok (rows ++ rest')

/-- The whole-store loop of ls_packages over team directories. -/
def lsTeams : List (String × TeamDir) → Except StoreError (List Row)
  | [] => Except.ok []
  | (tname, users) :: rest =>
      match lsTeam tname users with
      | Except.error e => Except.error e
      | Except.ok rows =>
          match lsTeams rest with
          | Except.error e => Except.error e
          | Except.ok rest' => Except.ok (rows ++ rest')

/-- PackageStore.ls_packages: an empty listing when pkgs/ is absent,
otherwise the nested enumeration building one row per (package, tag) plus
one empty-tag row per untagged instance.  The pre-teams layout is
unreachable after a successful open and not modelled (empty listing). -/
def ls_packages (s : Store) : Except StoreError (List Row) :=
  match s.pkgs with
  | none => Except.ok []
  | some (PkgArea.flat _) => Except.ok []
  | some (PkgArea.teamed teams) => lsTeams teams

/-- A current-format store root with empty directories, used as the base of
the concrete stores below. -/
def baseStore : Store :=
  { version := some VERSION, pkgs := none, objects := [], flatObjects := [],
    objSubdirs := [], rootExists := true, objDirExists := true,
    tmpDirExists := true, cacheDirExists := true }

/-- Concrete store for the prune witnesses: one package instance references
object "liveobj"; object files "liveobj" and "orphan" are on disk. -/
def pruneWitnessStore : Store :=
  { baseStore with
      objects := ["liveobj", "orphan"]
      pkgs := some (PkgArea.teamed [(DEFAULT_TEAM,
        [("alice", [("pkg", PkgEntry.dir
          { instances := [("i1", ContentsNode.file "liveobj")],
            tags := [], parsable := true })])])]) }

/-- A 1.2-format store in the pre-teams layout. -/
def legacyStore : Store :=
  { version := some "1.2",
    pkgs := some (PkgArea.flat
      [("bob", [("p", PkgEntry.dir { instances := [], tags := [], parsable := true })])]),
    objects := [], flatObjects := [], objSubdirs := [], rootExists := true,
    objDirExists := true, tmpDirExists := true, cacheDirExists := true }

/-- A store whose version file reads an unknown version. -/
def badVersionStore : Store := { baseStore with version := some "2.0" }

/-- Whether a package-path entry is a directory holding a tag whose recorded
hash names no instance of the same package (a dangling tag). -/
def hasDanglingTag : PkgEntry → Bool
  | PkgEntry.file _ => false
  | PkgEntry.dir d => d.tags.any fun tg => d.instances.all fun i => i.1 != tg.2

/-- The listPackages scenario store: package alice/weather in the default
team with instances h1 and h2, tags latest and v1 both containing h1, no tag
naming h2. -/
def lsScenarioStore : Store :=
  { baseStore with pkgs := some (PkgArea.teamed [(DEFAULT_TEAM,
      [("alice", [("weather", PkgEntry.dir
        { instances := [("h1", ContentsNode.file "o1"),
                        ("h2", ContentsNode.file "o2")],
          tags := [("latest", "h1"), ("v1", "h1")], parsable := true })])])]) }

/-- A store with a dangling tag: tag v records hash nosuch, which names no
instance. -/
def danglingTagStore : Store :=
  { baseStore with pkgs := some (PkgArea.teamed [(DEFAULT_TEAM,
      [("alice", [("weather", PkgEntry.dir
        { instances := [("h1", ContentsNode.file "o1")],
          tags := [("v", "nosuch")], parsable := true })])])]) }

/-- A store with a pre-existing package directory at default/alice/pkg
holding one old instance. -/
def installCexStore : Store :=
  { baseStore with pkgs := some (PkgArea.teamed [(DEFAULT_TEAM,
      [("alice", [("pkg", PkgEntry.dir
        { instances := [("oldhash", ContentsNode.file "oldobj")],
          tags := [], parsable := true })])])]) }

/-- The contents installed over the pre-existing package. -/
def newContents : ContentsNode := ContentsNode.file "newobj"

/-- A store whose only package has a single instance referencing object
hash deadhash, for which no object file exists. -/
def removeCexStore : Store :=
  { baseStore with pkgs := some (PkgArea.teamed [(DEFAULT_TEAM,
      [("alice", [("pkg", PkgEntry.dir
        { instances := [("i1", ContentsNode.file "deadhash")],
          tags := [], parsable := true })])])]) }

section Lemmas

/-- Membership in the mark-phase fold: a hash survives marking iff it was a
candidate and no scanned instance references it. -/
lemma mem_foldl_pruneStep (l : List Package) (objs : Finset String) (h : String) :
    h ∈ l.foldl pruneStep objs ↔
      h ∈ objs ∧ ∀ p ∈ l, h ∉ find_object_hashes (get_contents p) := by
  induction l generalizing objs with
  | nil => simp
  | cons p rest ih =>
      rw [List.foldl_cons, ih]
      simp only [pruneStep, Finset.mem_filter, List.mem_cons, decide_not]
      constructor
      · rintro ⟨⟨h1, h2⟩, h3⟩
        refine ⟨h1, ?_⟩
        rintro q (rfl | hq)
        · simpa using h2
        · exact h3 q hq
      · rintro ⟨h1, h2⟩
        exact ⟨⟨h1, by simpa using h2 p (Or.inl rfl)⟩, fun q hq => h2 q (Or.inr hq)⟩

/-- A hash is live iff some instance enumerated by iterpackages references it. -/
lemma mem_liveHashes (s : Store) (h : String) :
    h ∈ liveHashes s ↔ ∃ p ∈ iterpackages s, h ∈ find_object_hashes (get_contents p) := by
  simp [liveHashes, List.mem_flatMap]

/-- Characterization of the set prune returns. -/
lemma mem_prune_ret (s : Store) (objs : Finset String) (h : String) :
    h ∈ (prune s objs).2 ↔ h ∈ objs ∧ h ∉ liveHashes s := by
  rw [prune]
  simp only [mem_foldl_pruneStep, mem_liveHashes]
  constructor
  · rintro ⟨h1, h2⟩
    exact ⟨h1, fun ⟨p, hp, hh⟩ => h2 p hp hh⟩
  · rintro ⟨h1, h2⟩
    exact ⟨h1, fun p hp hh => h2 ⟨p, hp, hh⟩⟩

/-- Characterization of the object files left on disk after prune. -/
lemma mem_prune_objects (s : Store) (objs : Finset String) (h : String) :
    h ∈ (prune s objs).1.objects ↔ h ∈ s.objects ∧ h ∉ (prune s objs).2 := by
  rw [prune]
  simp [List.mem_filter]

end Lemmas

/-- C1 — Prune safety: for every candidate set and store state, a hash
reachable via the manifest collaborator's hash enumeration from some package
instance currently present in the store is neither contained in the set
prune returns nor deleted from disk by prune. -/
theorem prune_safety (s : Store) (objs : Finset String) (h : String)
    (hlive : h ∈ liveHashes s) :
    h ∉ (prune s objs).2 ∧ (h ∈ s.objects → h ∈ (prune s objs).1.objects) := by
  have hret : h ∉ (prune s objs).2 := by
    rw [mem_prune_ret]
    rintro ⟨-, hc⟩
    exact hc hlive
  exact ⟨hret, fun hd => (mem_prune_objects s objs h).2 ⟨hd, hret⟩⟩

/-- Concrete instantiation of prune_safety: one live instance referencing
"liveobj", candidate set containing it. -/
theorem prune_safety_witness :
    "liveobj" ∉ (prune pruneWitnessStore ({"liveobj", "orphan"} : Finset String)).2 ∧
      ("liveobj" ∈ pruneWitnessStore.objects →
        "liveobj" ∈ (prune pruneWitnessStore ({"liveobj", "orphan"} : Finset String)).1.objects) :=
  prune_safety pruneWitnessStore {"liveobj", "orphan"} "liveobj" (by decide)

/-- C2 — Prune completeness: an object hash on disk referenced by zero live
package instances is, after a full-store prune seeded with all object hashes
in the store, removed from disk and contained in the returned set. -/
theorem prune_completeness (s : Store) (h : String)
    (hdead : h ∉ liveHashes s) (hdisk : h ∈ s.objects) :
    h ∉ (prune s s.objects.toFinset).1.objects ∧ h ∈ (prune s s.objects.toFinset).2 := by
  have hret : h ∈ (prune s s.objects.toFinset).2 := by
    rw [mem_prune_ret]
    exact ⟨List.mem_toFinset.2 hdisk, hdead⟩
  refine ⟨fun hmem => ?_, hret⟩
  exact ((mem_prune_objects s s.objects.toFinset h).1 hmem).2 hret

/-- Concrete instantiation of prune_completeness: the orphan object is swept
by a full-store prune. -/
theorem prune_completeness_witness :
    "orphan" ∉ (prune pruneWitnessStore pruneWitnessStore.objects.toFinset).1.objects ∧
      "orphan" ∈ (prune pruneWitnessStore pruneWitnessStore.objects.toFinset).2 :=
  prune_completeness pruneWitnessStore "orphan" (by decide) (by decide)

/-- Opening a store whose version file is absent or already current touches
nothing: no migration guard matches and the compatibility check passes. -/
lemma openStore_noop (s : Store) (hv : s.version = none ∨ s.version = some VERSION) :
    openStore s = { store := s, ret := (), err := none } := by
  rcases hv with hv | hv <;> simp [openStore, hv, VERSION]

/-- After a successful open the version file is absent or reads the current
version: every migration path ends by persisting version 1.4. -/
lemma openStore_version_ok (s : Store) (hok : (openStore s).err = none) :
    (openStore s).store.version = none ∨ (openStore s).store.version = some VERSION := by
  by_cases h12 : s.version = some "1.2"
  · rcases hpk : s.pkgs with - | (users | t)
    · simp [openStore, h12, hpk] at hok
    · by_cases hany : users.any (fun u => u.1 = DEFAULT_TEAM) = true
      · simp [openStore, h12, hpk, hany] at hok
      · right
        simp [openStore, h12, hpk, hany, migrate_1_3]
    · simp [openStore, h12, hpk] at hok
  · by_cases h13 : s.version = some "1.3"
    · right
      simp [openStore, h12, h13, migrate_1_3]
    · by_cases hcur : s.version = none ∨ s.version = some VERSION
      · simp [openStore, h12, h13, hcur]
      · simp [openStore, h12, h13, hcur] at hok

/-- C5 — Migration idempotence: once a store has been opened successfully,
opening the resulting store again performs no filesystem mutation and raises
nothing: the second open returns the store state unchanged. -/
theorem openStore_idempotent (s : Store) (hok : (openStore s).err = none) :
    openStore ((openStore s).store) =
      { store := (openStore s).store, ret := (), err := none } :=
  openStore_noop _ (openStore_version_ok s hok)

/-- Concrete instantiation of openStore_idempotent on a 1.2 store that the
first open migrates to 1.4. -/
theorem openStore_idempotent_witness :
    openStore ((openStore legacyStore).store) =
      { store := (openStore legacyStore).store, ret := (), err := none } :=
  openStore_idempotent legacyStore (by decide)

/-- C6 — Any version string other than absent, 1.2, 1.3 or the current 1.4
makes open raise the incompatibility error with the on-disk state completely
unchanged. -/
theorem openStore_incompatible (s : Store) (v : String) (hv : s.version = some v)
    (h2 : v ≠ "1.2") (h3 : v ≠ "1.3") (h4 : v ≠ VERSION) :
    openStore s = { store := s, ret := (), err := some StoreError.incompatibleFormat } := by
  have h4' : v ≠ "1.4" := h4
  simp [openStore, hv, h2, h3, h4', VERSION]

/-- Concrete instantiation of openStore_incompatible at version 2.0. -/
theorem openStore_incompatible_witness :
    openStore badVersionStore =
      { store := badVersionStore, ret := (), err := some StoreError.incompatibleFormat } :=
  openStore_incompatible badVersionStore "2.0" rfl (by decide) (by decide) (by decide)

/-- An invalid user or package name makes check_name_rest fail with the
first offending name. -/
lemma check_name_rest_invalid (user package : String)
    (h : is_nodename user = false ∨ is_nodename package = false) :
    ∃ n, is_nodename n = false ∧
      check_name_rest user package [] = some (StoreError.invalidName n) := by
  by_cases hu : is_nodename user = true
  · have hp : is_nodename package = false := by
      rcases h with h | h
      · rw [hu] at h
        cases h
      · exact h
    exact ⟨package, hp, by simp [check_name_rest, hu, hp]⟩
  · have hu' : is_nodename user = false := by
      cases hv : is_nodename user
      · rfl
      · exact absurd hv hu
    exact ⟨user, hu', by simp [check_name_rest, hu']⟩

/-- An invalid team (when non-null), user or package name makes check_name
fail with a naming error for one of the offending names. -/
lemma check_name_invalid (team : Option String) (user package : String)
    (hbad : (∃ t, team = some t ∧ is_nodename t = false) ∨
      is_nodename user = false ∨ is_nodename package = false) :
    ∃ n, is_nodename n = false ∧
      check_name team user package [] = some (StoreError.invalidName n) := by
  cases team with
  | none =>
      rcases hbad with ⟨t, ht, -⟩ | h
      · cases ht
      · obtain ⟨n, hn, hcr⟩ := check_name_rest_invalid user package h
        exact ⟨n, hn, by simp [check_name, hcr]⟩
  | some t =>
      by_cases htn : is_nodename t = true
      · have h : is_nodename user = false ∨ is_nodename package = false := by
          rcases hbad with ⟨t', ht', hf⟩ | h
          · injection ht' with e
            subst e
            rw [htn] at hf
            cases hf
          · exact h
        obtain ⟨n, hn, hcr⟩ := check_name_rest_invalid user package h
        exact ⟨n, hn, by simp [check_name, htn, hcr]⟩
      · have htn' : is_nodename t = false := by
          cases hv : is_nodename t
          · rfl
          · exact absurd hv htn
        exact ⟨t, htn', by simp [check_name, htn']⟩

/-- C7 — Fail-fast name validation: whenever the team (when non-null), user
or package name fails the Naming Validator, install_package, create_package
and remove_package all raise a naming error for an offending name and
perform no filesystem mutation whatsoever: each returns the store state
unchanged. -/
theorem mutations_fail_fast (s : Store) (team : Option String) (user package : String)
    (c : ContentsNode)
    (hbad : (∃ t, team = some t ∧ is_nodename t = false) ∨
      is_nodename user = false ∨ is_nodename package = false) :
    ∃ n, is_nodename n = false ∧
      install_package s team user package c =
        { store := s, ret := (), err := some (StoreError.invalidName n) } ∧
      create_package s team user package false =
        { store := s, ret := (), err := some (StoreError.invalidName n) } ∧
      remove_package s team user package =
        { store := s, ret := ∅, err := some (StoreError.invalidName n) } := by
  obtain ⟨n, hn, hcn⟩ := check_name_invalid team user package hbad
  refine ⟨n, hn, ?_, ?_, ?_⟩
  · simp [install_package, hcn]
  · simp [create_package, install_package, hcn]
  · simp [remove_package, hcn]

/-- Concrete instantiation of mutations_fail_fast at an invalid user name. -/
theorem mutations_fail_fast_witness :
    ∃ n, is_nodename n = false ∧
      install_package baseStore none "bad name" "pkg" (ContentsNode.group []) =
        { store := baseStore, ret := (), err := some (StoreError.invalidName n) } ∧
      create_package baseStore none "bad name" "pkg" false =
        { store := baseStore, ret := (), err := some (StoreError.invalidName n) } ∧
      remove_package baseStore none "bad name" "pkg" =
        { store := baseStore, ret := ∅, err := some (StoreError.invalidName n) } :=
  mutations_fail_fast baseStore none "bad name" "pkg" (ContentsNode.group [])
    (Or.inr (Or.inl (by decide)))

/-- Valid names pass check_name. -/
lemma check_name_valid (team : Option String) (user package : String)
    (hteam : ∀ t, team = some t → is_nodename t = true)
    (hu : is_nodename user = true) (hp : is_nodename package = true) :
    check_name team user package [] = none := by
  cases team with
  | none => simp [check_name, check_name_rest, hu, hp]
  | some t => simp [check_name, check_name_rest, hteam t rfl, hu, hp]

/-- C8 — For valid names, get_package never raises: it returns None exactly
when the package path is not a directory or the manifest collaborator cannot
parse the package, and a package handle otherwise. -/
theorem get_package_spec (s : Store) (team : Option String) (user package : String)
    (hteam : ∀ t, team = some t → is_nodename t = true)
    (hu : is_nodename user = true) (hp : is_nodename package = true) :
    ∃ r, get_package s team user package = Except.ok r ∧
      (r = none ↔
        (∀ d, getPkgEntry s (team.getD DEFAULT_TEAM) user package ≠ some (PkgEntry.dir d)) ∨
        ∃ d, getPkgEntry s (team.getD DEFAULT_TEAM) user package = some (PkgEntry.dir d) ∧
          d.parsable = false) := by
  have hcn := check_name_valid team user package hteam hu hp
  rcases hent : getPkgEntry s (team.getD DEFAULT_TEAM) user package with - | e
  · exact ⟨none, by simp [get_package, hcn, hent], by simp [hent]⟩
  · cases e with
    | file c => exact ⟨none, by simp [get_package, hcn, hent], by simp [hent]⟩
    | dir d =>
        by_cases hd : d.parsable = true
        · refine ⟨some { user := user, package := package, pkghash := none, contents := none },
            by simp [get_package, hcn, hent, hd], ?_⟩
          constructor
          · intro hfalse
            exact Option.noConfusion hfalse
          · rintro (hall | ⟨d', hd', hpf⟩)
            · exact absurd rfl (hall d)
            · injection hd' with e
              injection e with e2
              subst e2
              rw [hd] at hpf
              exact Bool.noConfusion hpf
        · have hd' : d.parsable = false := by
            cases hv : d.parsable
            · rfl
            · exact absurd hv hd
          exact ⟨none, by simp [get_package, hcn, hent, hd'], by simp [hent, hd']⟩

/-- Concrete instantiation of get_package_spec on a store without the
requested package. -/
theorem get_package_spec_witness :
    ∃ r, get_package baseStore none "alice" "pkg" = Except.ok r ∧
      (r = none ↔
        (∀ d, getPkgEntry baseStore DEFAULT_TEAM "alice" "pkg" ≠ some (PkgEntry.dir d)) ∨
        ∃ d, getPkgEntry baseStore DEFAULT_TEAM "alice" "pkg" = some (PkgEntry.dir d) ∧
          d.parsable = false) :=
  get_package_spec baseStore none "alice" "pkg"
    (fun t h => Option.noConfusion h) (by decide) (by decide)

/-- C9 — listPackages row construction on the scenario store: exactly the
rows (alice/weather, latest, h1), (alice/weather, v1, h1) and
(alice/weather, empty tag, h2), with the default team's name absent from the
displayed qualified name. -/
theorem ls_packages_scenario :
    ls_packages lsScenarioStore = Except.ok
      [("alice/weather", "latest", "h1"), ("alice/weather", "v1", "h1"),
       ("alice/weather", "", "h2")] := rfl

/-- If the tag loop succeeds, every tag's recorded hash is a key of the
instance map it started from. -/
lemma tagFold_ok_keys (tags : List (String × String)) :
    ∀ pm m, tagFold pm tags = Except.ok m → ∀ th ∈ tags, ∃ p ∈ pm, p.1 = th.2 := by
  induction tags with
  | nil =>
      intro pm m _ th hth
      cases hth
  | cons t rest ih =>
      intro pm m hok th hth
      obtain ⟨tag, h⟩ := t
      rw [tagFold] at hok
      by_cases hany : pm.any (fun p => p.1 = h) = true
      · rw [if_pos hany] at hok
        rcases List.mem_cons.1 hth with rfl | hth'
        · obtain ⟨p, hp, hph⟩ := List.any_eq_true.1 hany
          exact ⟨p, hp, by simpa using hph⟩
        · obtain ⟨p, hp, hph⟩ := ih _ m hok th hth'
          obtain ⟨q, hq, hqp⟩ := List.mem_map.1 hp
          refine ⟨q, hq, ?_⟩
          have hq1 : q.1 = p.1 := by
            by_cases hqh : q.1 = h
            · rw [if_pos hqh] at hqp
              rw [← hqp]
            · rw [if_neg hqh] at hqp
              rw [← hqp]
          rw [hq1, hph]
      · rw [if_neg hany] at hok
        cases hok

/-- Every error the tag loop raises is a KeyError. -/
lemma tagFold_error_shape (tags : List (String × String)) :
    ∀ pm e, tagFold pm tags = Except.error e → ∃ h, e = StoreError.keyError h := by
  induction tags with
  | nil =>
      intro pm e he
      rw [tagFold] at he
      cases he
  | cons t rest ih =>
      intro pm e he
      obtain ⟨tag, h⟩ := t
      rw [tagFold] at he
      by_cases hany : pm.any (fun p => p.1 = h) = true
      · rw [if_pos hany] at he
        exact ih _ e he
      · rw [if_neg hany] at he
        injection he with e2
        exact ⟨h, e2.symm⟩

/-- Every error lsPkg raises is a KeyError. -/
lemma lsPkg_error_shape (team user package : String) (d : PackageDirData) (e : StoreError)
    (he : lsPkg team user package d = Except.error e) : ∃ h, e = StoreError.keyError h := by
  rw [lsPkg] at he
  cases htf : tagFold (d.instances.map fun i => (i.1, [])) d.tags with
  | error e2 =>
      rw [htf] at he
      injection he with he2
      rw [← he2]
      exact tagFold_error_shape d.tags _ e2 htf
  | ok pm =>
      rw [htf] at he
      cases he

/-- A package directory with a dangling tag makes lsPkg raise a KeyError. -/
lemma lsPkg_dangling (team user package : String) (d : PackageDirData)
    (hd : hasDanglingTag (PkgEntry.dir d) = true) :
    ∃ h, lsPkg team user package d = Except.error (StoreError.keyError h) := by
  cases htf : tagFold (d.instances.map fun i => (i.1, [])) d.tags with
  | ok pm =>
      exfalso
      rw [hasDanglingTag] at hd
      obtain ⟨tg, htg, hallb⟩ := List.any_eq_true.1 hd
      obtain ⟨p, hp, hp2⟩ := tagFold_ok_keys d.tags _ pm htf tg htg
      obtain ⟨i, hi, hip⟩ := List.mem_map.1 hp
      have hkey : i.1 = tg.2 := by
        rw [← hp2, ← hip]
      have hne := List.all_eq_true.1 hallb i hi
      rw [bne_iff_ne] at hne
      exact hne hkey
  | error e =>
      obtain ⟨h, rfl⟩ := tagFold_error_shape d.tags _ e htf
      refine ⟨h, ?_⟩
      rw [lsPkg, htf]

/-- Every error lsUser raises is a KeyError. -/
lemma lsUser_error_shape (team user : String) (pkgs : List (String × PkgEntry)) :
    ∀ e, lsUser team user pkgs = Except.error e → ∃ h, e = StoreError.keyError h := by
  induction pkgs with
  | nil =>
      intro e he
      cases he
  | cons q rest ih =>
      intro e he
      obtain ⟨qname, qe⟩ := q
      cases qe with
      | file c => exact ih e he
      | dir d =>
          rw [lsUser] at he
          cases hpk : lsPkg team user qname d with
          | error e2 =>
              rw [hpk] at he
              injection he with he2
              rw [← he2]
              exact lsPkg_error_shape team user qname d e2 hpk
          | ok rows =>
              rw [hpk] at he
              cases hrest : lsUser team user rest with
              | error e2 =>
                  rw [hrest] at he
                  injection he with he2
                  rw [← he2]
                  exact ih e2 hrest
              | ok rest2 =>
                  rw [hrest] at he
                  cases he

/-- A user directory containing a package with a dangling tag makes lsUser
raise a KeyError. -/
lemma lsUser_dangling (team user : String) (pkgs : List (String × PkgEntry))
    (hd : ∃ p ∈ pkgs, hasDanglingTag p.2 = true) :
    ∃ h, lsUser team user pkgs = Except.error (StoreError.keyError h) := by
  induction pkgs with
  | nil =>
      obtain ⟨p, hp, -⟩ := hd
      cases hp
  | cons q rest ih =>
      obtain ⟨qname, qe⟩ := q
      cases qe with
      | file c =>
          obtain ⟨p, hp, hpd⟩ := hd
          rcases List.mem_cons.1 hp with rfl | hp'
          · rw [hasDanglingTag] at hpd
            cases hpd
          · exact ih ⟨p, hp', hpd⟩
      | dir d =>
          obtain ⟨p, hp, hpd⟩ := hd
          rcases List.mem_cons.1 hp with rfl | hp'
          · obtain ⟨h, hpk⟩ := lsPkg_dangling team user qname d hpd
            refine ⟨h, ?_⟩
            rw [lsUser, hpk]
          · cases hpk : lsPkg team user qname d with
            | error e =>
                obtain ⟨h, rfl⟩ := lsPkg_error_shape team user qname d e hpk
                refine ⟨h, ?_⟩
                rw [lsUser, hpk]
            | ok rows =>
                obtain ⟨h, hrest⟩ := ih ⟨p, hp', hpd⟩
                refine ⟨h, ?_⟩
                rw [lsUser, hpk, hrest]

/-- Every error lsTeam raises is a KeyError. -/
lemma lsTeam_error_shape (team : String) (users : List (String × UserDir)) :
    ∀ e, lsTeam team users = Except.error e → ∃ h, e = StoreError.keyError h := by
  induction users with
  | nil =>
      intro e he
      cases he
  | cons u rest ih =>
      intro e he
      rw [lsTeam] at he
      cases hu : lsUser team u.1 u.2 with
      | error e2 =>
          rw [hu] at he
          injection he with he2
          rw [← he2]
          exact lsUser_error_shape team u.1 u.2 e2 hu
      | ok rows =>
          rw [hu] at he
          cases hrest : lsTeam team rest with
          | error e2 =>
              rw [hrest] at he
              injection he with he2
              rw [← he2]
              exact ih e2 hrest
          | ok rest2 =>
              rw [hrest] at he
              cases he

/-- A team directory containing a dangling tag makes lsTeam raise a
KeyError. -/
lemma lsTeam_dangling (team : String) (users : List (String × UserDir))
    (hd : ∃ u ∈ users, ∃ p ∈ u.2, hasDanglingTag p.2 = true) :
    ∃ h, lsTeam team users = Except.error (StoreError.keyError h) := by
  induction users with
  | nil =>
      obtain ⟨u, hu, -⟩ := hd
      cases hu
  | cons u rest ih =>
      obtain ⟨u0, hu0, hpd⟩ := hd
      rcases List.mem_cons.1 hu0 with rfl | hu0r
      · obtain ⟨h, hus⟩ := lsUser_dangling team u0.1 u0.2 hpd
        refine ⟨h, ?_⟩
        rw [lsTeam, hus]
      · cases hus : lsUser team u.1 u.2 with
        | error e =>
            obtain ⟨h, rfl⟩ := lsUser_error_shape team u.1 u.2 e hus
            refine ⟨h, ?_⟩
            rw [lsTeam, hus]
        | ok rows =>
            obtain ⟨h, hrest⟩ := ih ⟨u0, hu0r, hpd⟩
            refine ⟨h, ?_⟩
            rw [lsTeam, hus, hrest]

/-- A store containing a dangling tag makes the team loop raise a
KeyError. -/
lemma lsTeams_dangling (teams : List (String × TeamDir))
    (hd : ∃ t ∈ teams, ∃ u ∈ t.2, ∃ p ∈ u.2, hasDanglingTag p.2 = true) :
    ∃ h, lsTeams teams = Except.error (StoreError.keyError h) := by
  induction teams with
  | nil =>
      obtain ⟨t, ht, -⟩ := hd
      cases ht
  | cons t rest ih =>
      obtain ⟨t0, ht0, hpd⟩ := hd
      rcases List.mem_cons.1 ht0 with rfl | ht0r
      · obtain ⟨h, hts⟩ := lsTeam_dangling t0.1 t0.2 hpd
        refine ⟨h, ?_⟩
        rw [lsTeams, hts]
      · cases hts : lsTeam t.1 t.2 with
        | error e =>
            obtain ⟨h, rfl⟩ := lsTeam_error_shape t.1 t.2 e hts
            refine ⟨h, ?_⟩
            rw [lsTeams, hts]
        | ok rows =>
            obtain ⟨h, hrest⟩ := ih ⟨t0, ht0r, hpd⟩
            refine ⟨h, ?_⟩
            rw [lsTeams, hts, hrest]

/-- C10 — A store in which some package holds a tag file recording a hash
with no corresponding instance file makes ls_packages fail with a KeyError
lookup error instead of returning a listing. -/
theorem ls_packages_dangling (s : Store) (teams : List (String × TeamDir))
    (hpk : s.pkgs = some (PkgArea.teamed teams))
    (hd : ∃ t ∈ teams, ∃ u ∈ t.2, ∃ p ∈ u.2, hasDanglingTag p.2 = true) :
    ∃ h, ls_packages s = Except.error (StoreError.keyError h) := by
  obtain ⟨h, hts⟩ := lsTeams_dangling teams hd
  refine ⟨h, ?_⟩
  rw [ls_packages, hpk]
  exact hts

/-- Concrete instantiation of ls_packages_dangling on the dangling-tag
store. -/
theorem ls_packages_dangling_witness :
    ∃ h, ls_packages danglingTagStore = Except.error (StoreError.keyError h) :=
  ls_packages_dangling danglingTagStore
    [(DEFAULT_TEAM, [("alice", [("weather", PkgEntry.dir
      { instances := [("h1", ContentsNode.file "o1")],
        tags := [("v", "nosuch")], parsable := true })])])]
    rfl (by decide)

/-- Writing an entry makes lookup find it. -/
lemma findEntry_putEntry {β : Type} (l : List (String × β)) (k : String) (v : β) :
    findEntry (putEntry l k v) k = some v := by
  induction l with
  | nil => simp [putEntry, findEntry]
  | cons p rest ih =>
      obtain ⟨k1, v1⟩ := p
      by_cases hp : k1 = k
      · have hany : (((k1, v1) :: rest).any fun q => q.1 = k) = true := by
          simp [List.any_cons, hp]
        rw [putEntry, if_pos hany, List.map_cons]
        simp only [if_pos hp]
        rw [findEntry, if_pos hp]
      · by_cases hrest : (rest.any fun q => q.1 = k) = true
        · have hany : (((k1, v1) :: rest).any fun q => q.1 = k) = true := by
            simp [List.any_cons, hrest]
          rw [putEntry, if_pos hany, List.map_cons]
          simp only [if_neg hp]
          rw [findEntry, if_neg hp]
          rw [putEntry, if_pos hrest] at ih
          exact ih
        · have hany : ¬((((k1, v1) :: rest).any fun q => q.1 = k) = true) := by
            simp only [List.any_cons, Bool.or_eq_true]
            rintro (hc | hc)
            · exact hp (by simpa using hc)
            · exact hrest hc
          rw [putEntry, if_neg hany, List.cons_append]
          rw [findEntry, if_neg hp]
          rw [putEntry, if_neg hrest] at ih
          exact ih

/-- Lookup in a user directory purged of a package finds nothing under that
package name. -/
lemma findEntry_delInUser (pkgs : List (String × PkgEntry)) (package : String) :
    findEntry (delInUser pkgs package) package = none := by
  induction pkgs with
  | nil => rfl
  | cons p rest ih =>
      obtain ⟨k1, v1⟩ := p
      rw [delInUser, List.filter_cons]
      rw [delInUser] at ih
      by_cases hp : k1 = package
      · have hnc : ¬(decide (k1 ≠ package) = true) := by simp [hp]
        rw [if_neg hnc]
        exact ih
      · have hc : decide (k1 ≠ package) = true := by simp [hp]
        rw [if_pos hc]
        simp only [findEntry]
        rw [if_neg hp]
        exact ih

/-- Lookup of the purged user in a team directory returns the purged user
directory. -/
lemma findEntry_delInTeam (users : TeamDir) (user package : String) :
    findEntry (delInTeam users user package) user =
      (findEntry users user).map fun pkgs => delInUser pkgs package := by
  induction users with
  | nil => rfl
  | cons u rest ih =>
      obtain ⟨k1, v1⟩ := u
      by_cases hu : k1 = user
      · rw [delInTeam, List.map_cons]
        simp only [if_pos hu]
        rw [findEntry, if_pos hu, findEntry, if_pos hu]
        rfl
      · rw [delInTeam, List.map_cons]
        simp only [if_neg hu]
        rw [findEntry, if_neg hu, findEntry, if_neg hu]
        exact ih

/-- Lookup of the purged team returns the purged team directory. -/
lemma findEntry_delTeams (teams : List (String × TeamDir)) (team user package : String) :
    findEntry (teams.map fun t =>
        if t.1 = team then (t.1, delInTeam t.2 user package) else t) team =
      (findEntry teams team).map fun td => delInTeam td user package := by
  induction teams with
  | nil => rfl
  | cons t rest ih =>
      obtain ⟨k1, v1⟩ := t
      by_cases ht : k1 = team
      · rw [List.map_cons]
        simp only [if_pos ht]
        rw [findEntry, if_pos ht, findEntry, if_pos ht]
        rfl
      · rw [List.map_cons]
        simp only [if_neg ht]
        rw [findEntry, if_neg ht, findEntry, if_neg ht]
        exact ih

/-- rmtree of a package path removes the package from path lookup. -/
lemma getPkgEntry_delPkgTree (s : Store) (t u p : String) :
    getPkgEntry (delPkgTree s t u p) t u p = none := by
  cases hpk : s.pkgs with
  | none => simp [delPkgTree, getPkgEntry, hpk]
  | some area =>
      cases area with
      | flat users => simp [delPkgTree, getPkgEntry, hpk]
      | teamed teams =>
          simp only [delPkgTree, hpk, getPkgEntry, findEntry_delTeams]
          cases hft : findEntry teams t with
          | none => rfl
          | some users =>
              simp only [Option.map_some', Option.some_bind, findEntry_delInTeam]
              cases hfu : findEntry users u with
              | none => rfl
              | some pkgs =>
                  simp [findEntry_delInUser]

/-- Writing a package entry makes path lookup find it. -/
lemma getPkgEntry_setPkgEntry (s : Store) (t u p : String) (e : PkgEntry) :
    getPkgEntry (setPkgEntry s t u p e) t u p = some e := by
  cases hpk : s.pkgs with
  | none => simp [setPkgEntry, getPkgEntry, hpk, findEntry]
  | some area =>
      cases area with
      | flat users => simp [setPkgEntry, getPkgEntry, hpk, findEntry]
      | teamed teams => simp [setPkgEntry, getPkgEntry, hpk, findEntry_putEntry]

/-- create_dirs never changes what a package path resolves to. -/
lemma getPkgEntry_create_dirs (s : Store) (t u p : String) :
    getPkgEntry (create_dirs s) t u p = getPkgEntry s t u p := by
  cases hpk : s.pkgs with
  | none => simp [create_dirs, getPkgEntry, hpk, findEntry]
  | some area => simp [create_dirs, getPkgEntry, hpk]

/-- C3 counterexample — install_package over a pre-existing package
directory does not remove it: os.remove raises on a directory and the
OSError is swallowed, so after the call the package path still holds the old
instance next to the fresh one, not only the newly installed package. -/
theorem install_package_dir_cex :
    (install_package installCexStore none "alice" "pkg" newContents).err = none ∧
    getPkgEntry (install_package installCexStore none "alice" "pkg" newContents).store
        DEFAULT_TEAM "alice" "pkg" =
      some (PkgEntry.dir
        { instances := [("oldhash", ContentsNode.file "oldobj"),
                        ("F(newobj)", newContents)],
          tags := [], parsable := true }) :=
  ⟨rfl, rfl⟩

/-- C3 amended — install_package with valid names raises nothing and, at the
package path: over a pre-existing regular file or an absent path it leaves
exactly the fresh package with the single installed instance; over a
pre-existing package directory it leaves that directory with the fresh
instance written alongside the directory's existing instances. -/
theorem install_package_amended (s : Store) (team : Option String) (user package : String)
    (c : ContentsNode) (hcn : check_name team user package [] = none) :
    (install_package s team user package c).err = none ∧
    getPkgEntry (install_package s team user package c).store
        (team.getD DEFAULT_TEAM) user package =
      some (match getPkgEntry s (team.getD DEFAULT_TEAM) user package with
        | some (PkgEntry.dir d) =>
            PkgEntry.dir { d with instances := putEntry d.instances (contentsHash c) c }
        | _ =>
            PkgEntry.dir { instances := [(contentsHash c, c)], tags := [],
                           parsable := true }) := by
  have hcd := getPkgEntry_create_dirs s (team.getD DEFAULT_TEAM) user package
  rcases hent : getPkgEntry s (team.getD DEFAULT_TEAM) user package with - | e
  · rw [hent] at hcd
    exact ⟨by simp [install_package, hcn],
      by simp [install_package, hcn, writePackageContents, hcd, getPkgEntry_setPkgEntry]⟩
  · cases e with
    | file cnt =>
        rw [hent] at hcd
        exact ⟨by simp [install_package, hcn],
          by simp [install_package, hcn, writePackageContents, hcd,
            getPkgEntry_delPkgTree, getPkgEntry_setPkgEntry]⟩
    | dir d =>
        rw [hent] at hcd
        exact ⟨by simp [install_package, hcn],
          by simp [install_package, hcn, writePackageContents, hcd, getPkgEntry_setPkgEntry]⟩

/-- Concrete instantiation of install_package_amended over a pre-existing
package directory. -/
theorem install_package_amended_witness :
    (install_package installCexStore none "alice" "pkg" newContents).err = none ∧
    getPkgEntry (install_package installCexStore none "alice" "pkg" newContents).store
        DEFAULT_TEAM "alice" "pkg" =
      some (match getPkgEntry installCexStore DEFAULT_TEAM "alice" "pkg" with
        | some (PkgEntry.dir d) =>
            PkgEntry.dir { d with
              instances := putEntry d.instances (contentsHash newContents) newContents }
        | _ =>
            PkgEntry.dir { instances := [(contentsHash newContents, newContents)],
                           tags := [], parsable := true }) :=
  install_package_amended installCexStore none "alice" "pkg" newContents (by decide)

/-- Membership in the union fold building remove_package's candidate
seed. -/
lemma mem_foldl_union (l : List (String × ContentsNode)) (init : Finset String) (h : String) :
    h ∈ l.foldl (fun acc i => acc ∪ (find_object_hashes i.2).toFinset) init ↔
      h ∈ init ∨ ∃ i ∈ l, h ∈ find_object_hashes i.2 := by
  induction l generalizing init with
  | nil => simp
  | cons i rest ih =>
      rw [List.foldl_cons, ih]
      simp only [Finset.mem_union, List.mem_toFinset, List.mem_cons]
      constructor
      · rintro ((h1 | h1) | ⟨j, hj, hjh⟩)
        · exact Or.inl h1
        · exact Or.inr ⟨i, Or.inl rfl, h1⟩
        · exact Or.inr ⟨j, Or.inr hj, hjh⟩
      · rintro (h1 | ⟨j, (rfl | hj), hjh⟩)
        · exact Or.inl (Or.inl h1)
        · exact Or.inl (Or.inr hjh)
        · exact Or.inr ⟨j, hj, hjh⟩

/-- rmtree never touches the object files. -/
lemma delPkgTree_objects (s : Store) (t u p : String) :
    (delPkgTree s t u p).objects = s.objects := by
  cases hpk : s.pkgs with
  | none => simp [delPkgTree, hpk]
  | some area => cases area <;> simp [delPkgTree, hpk]

/-- prune never changes what a package path resolves to. -/
lemma getPkgEntry_prune (s : Store) (objs : Finset String) (t u p : String) :
    getPkgEntry (prune s objs).1 t u p = getPkgEntry s t u p := rfl

/-- C4 counterexample — remove_package returns deadhash in its result set
although no object file deadhash ever existed on disk, so the returned set
is not exactly the set of objects actually removed from disk. -/
theorem remove_package_ret_cex :
    (remove_package removeCexStore none "alice" "pkg").err = none ∧
    "deadhash" ∈ (remove_package removeCexStore none "alice" "pkg").ret ∧
    "deadhash" ∉ removeCexStore.objects := by
  refine ⟨rfl, ?_, by decide⟩
  decide

/-- C4 amended — remove_package on an existing package directory raises
nothing, deletes the entire package directory tree, and returns exactly the
hashes referenced by the removed package's instances that no remaining live
instance references; every returned hash's object file is deleted from disk
when present (and nothing else is deleted), but a returned hash need not
have had an existing object file. -/
theorem remove_package_amended (s : Store) (team : Option String) (user package : String)
    (d : PackageDirData)
    (hcn : check_name team user package [] = none)
    (hdir : getPkgEntry s (team.getD DEFAULT_TEAM) user package = some (PkgEntry.dir d)) :
    (remove_package s team user package).err = none ∧
    getPkgEntry (remove_package s team user package).store
      (team.getD DEFAULT_TEAM) user package = none ∧
    (∀ h, h ∈ (remove_package s team user package).ret ↔
      ((∃ i ∈ d.instances, h ∈ find_object_hashes i.2) ∧
        h ∉ liveHashes (delPkgTree s (team.getD DEFAULT_TEAM) user package))) ∧
    (∀ h, h ∈ (remove_package s team user package).ret →
      h ∉ (remove_package s team user package).store.objects) ∧
    (∀ h, h ∉ (remove_package s team user package).ret →
      (h ∈ (remove_package s team user package).store.objects ↔ h ∈ s.objects)) := by
  simp only [remove_package, hcn, hdir]
  refine ⟨trivial, ?_, ?_, ?_, ?_⟩
  · rw [getPkgEntry_prune, getPkgEntry_delPkgTree]
  · intro h
    rw [mem_prune_ret, mem_foldl_union]
    simp only [Finset.not_mem_empty, false_or]
  · intro h hr hobj
    exact ((mem_prune_objects _ _ h).1 hobj).2 hr
  · intro h hr
    rw [mem_prune_objects, delPkgTree_objects]
    constructor
    · rintro ⟨h1, -⟩
      exact h1
    · intro h1
      exact ⟨h1, hr⟩

/-- Concrete instantiation of remove_package_amended on the deadhash
store. -/
theorem remove_package_amended_witness :
    (remove_package removeCexStore none "alice" "pkg").err = none ∧
    getPkgEntry (remove_package removeCexStore none "alice" "pkg").store
      DEFAULT_TEAM "alice" "pkg" = none ∧
    (∀ h, h ∈ (remove_package removeCexStore none "alice" "pkg").ret ↔
      ((∃ i ∈ ([("i1", ContentsNode.file "deadhash")] : List (String × ContentsNode)),
          h ∈ find_object_hashes i.2) ∧
        h ∉ liveHashes (delPkgTree removeCexStore DEFAULT_TEAM "alice" "pkg"))) ∧
    (∀ h, h ∈ (remove_package removeCexStore none "alice" "pkg").ret →
      h ∉ (remove_package removeCexStore none "alice" "pkg").store.objects) ∧
    (∀ h, h ∉ (remove_package removeCexStore none "alice" "pkg").ret →
      (h ∈ (remove_package removeCexStore none "alice" "pkg").store.objects ↔
        h ∈ removeCexStore.objects)) :=
  remove_package_amended removeCexStore none "alice" "pkg"
    { instances := [("i1", ContentsNode.file "deadhash")], tags := [], parsable := true }
    (by decide) rfl

end QuiltStore
